import Mathlib

set_option linter.unusedVariables false

/-!
Verification of the memvra retrieval-and-context pipeline.

This file gives a shallow embedding, in Lean, of the parts of the memvra
source that the verified properties talk about:

* the line chunker and markdown chunker (`internal/scanner`, chunker section),
* the ranker (`internal/memory`, ranker),
* the vector store similarity filter and empty-input guards
  (`internal/memory`, vector store),
* the memory store insert (`internal/memory`, store),
* default importance assignment on the three memory-insertion paths,
* the lenient extraction-JSON parser (`internal/memory/extractor.go`),
* the skip-by-name file filter (`internal/scanner`, ignore),
* the token-budgeted context builder (`internal/context/builder.go`).

Modelling conventions:

* Go strings are modelled as Lean `String`; string algorithms used by the
  source (`strings.Split`, `strings.Join`, `strings.Index`,
  `strings.Contains`, `strings.TrimSpace`, `strings.ToLower`, ...) are
  re-implemented over `List Char` so that every definition reduces inside
  the kernel.  All characters the source compares against are ASCII, for
  which the character-level model agrees with Go's byte-level code.
* Go `float64` values are modelled as `ℚ`.  The verified properties are
  structural (which formula is computed, which comparisons guard an
  append); they do not depend on floating-point rounding.
* Go `int` is modelled as `Int` where negative values are reachable and
  as `Nat` where the source guarantees non-negativity.
* Database and HTTP effects are modelled by explicit state passing: the
  rows a query returns are a parameter, an insert returns the new table.
* The external BPE tokenizer (tiktoken) and the external JSON decoder
  (`encoding/json`) are not part of this repository; they are modelled as
  function parameters, constrained only by the spec-level facts the
  source relies on.
-/

namespace Memvra

/-! ## Character-level string helpers (Go `strings` package operations) -/

/-- Go `strings.Split(s, "\n")` at character level: split on a separator
character, never returning an empty list (splitting "" yields one empty
field, exactly like Go). -/
def splitOnChar (sep : Char) : List Char → List (List Char)
  | [] => [[]]
  | c :: rest =>
    match splitOnChar sep rest with
    | [] => [[c]]
    | g :: gs => if c = sep then [] :: g :: gs else (c :: g) :: gs

/-- Go `strings.Join(lines, "\n")` at character level. -/
def joinWithChar (sep : Char) : List (List Char) → List Char
  | [] => []
  | [l] => l
  | l :: ls => l ++ sep :: joinWithChar sep ls

/-- The lines of a file's content, as Go's `strings.Split(content, "\n")`
produces them. -/
def splitLines (content : String) : List String :=
  (splitOnChar '\x0a' content.data).map String.mk

/-- Go `strings.Join(lines, "\n")`. -/
def joinLines (lines : List String) : String :=
  String.mk (joinWithChar '\x0a' (lines.map String.data))

/-- List-level prefix test (Go `strings.HasPrefix` on the char lists). -/
def listHasPrefix : List Char → List Char → Bool
  | _, [] => true
  | [], _ :: _ => false
  | c :: cs, p :: ps => c = p && listHasPrefix cs ps

/-- Go `strings.HasPrefix(s, pre)`. -/
def goHasPrefix (s pre : String) : Bool :=
  listHasPrefix s.data pre.data

/-- Go `strings.Contains(s, sub)`: substring occurrence test. -/
def listContainsSub : List Char → List Char → Bool
  | [], sub => sub.isEmpty
  | c :: rest, sub => listHasPrefix (c :: rest) sub || listContainsSub rest sub

/-- Go `strings.Contains(s, sub)`. -/
def goContains (s sub : String) : Bool :=
  listContainsSub s.data sub.data

/-- ASCII lower-casing of one character (`unicode.ToLower` restricted to
the ASCII range the source compares against). -/
def charToLower (c : Char) : Char :=
  if 'A' ≤ c ∧ c ≤ 'Z' then Char.ofNat (c.toNat + 32) else c

/-- Go `strings.ToLower(s)` (ASCII fragment). -/
def goToLower (s : String) : String :=
  String.mk (s.data.map charToLower)

/-- The white-space set of Go `unicode.IsSpace`: ASCII white space plus
NEL, NBSP and the Unicode `White_Space` code points. -/
def isGoSpace (c : Char) : Bool :=
  c = ' ' || c = '\t' || c = '\x0a' || c = '\x0b' || c = '\x0c' || c = '\x0d' ||
  c.toNat = 0x85 || c.toNat = 0xa0 || c.toNat = 0x1680 ||
  (0x2000 <= c.toNat && c.toNat <= 0x200a) ||
  c.toNat = 0x2028 || c.toNat = 0x2029 || c.toNat = 0x202f ||
  c.toNat = 0x205f || c.toNat = 0x3000

/-- Drop leading Go white space. -/
def dropLeadingSpace : List Char → List Char
  | [] => []
  | c :: rest => if isGoSpace c then dropLeadingSpace rest else c :: rest

/-- Go `strings.TrimSpace(s)`. -/
def goTrimSpace (s : String) : String :=
  String.mk ((dropLeadingSpace (dropLeadingSpace s.data.reverse).reverse))

/-! ## Chunker (`internal/scanner`, `ChunkFile` / `chunkByLines` /
`chunkMarkdown`)

`RawChunk` mirrors the Go struct, with 1-based inclusive line numbers. -/

structure RawChunk where
  content : String
  startLine : Nat
  endLine : Nat
  chunkType : String
  deriving Repr, DecidableEq

def DefaultMaxLines : Nat := 150
def DefaultOverlap : Nat := 10

/-- `strings.Join(lines[s:e], "\n")`: the window `[s, e)` (0-based) of
the line list, joined back into content. -/
def windowContent (lines : List String) (s e : Nat) : String :=
  joinLines ((lines.drop s).take (e - s))

/-- The loop body of Go `chunkByLines`, with an explicit fuel argument so
that the definition is structural (the Go loop advances `start` by at
least 1 per iteration whenever `maxLines ≥ 1`, so `fuel = len(lines)`
iterations always suffice; `chunkByLines` passes exactly that).

Per iteration, mirroring the source: emit the window
`[start, min(start+maxLines, total))`; advance by `maxLines − overlap`
(or `maxLines` when that is not positive); if after advancing the
remaining tail is non-empty but shorter than `overlap`, the chunk just
emitted is extended to end-of-file instead and the loop stops. -/
def chunkLoop (lines : List String) (ctype : String) (maxLines overlap : Nat) :
    Nat → Nat → List RawChunk
  | 0, _ => []
  | fuel + 1, start =>
    let total := lines.length
    if start < total then
      let e := min (start + maxLines) total
      let c : RawChunk := ⟨windowContent lines start e, start + 1, e, ctype⟩
      let advance := if maxLines ≤ overlap then maxLines else maxLines - overlap
      let start' := start + advance
      if start' < total ∧ total - start' < overlap then
        [{ c with content := windowContent lines start total, endLine := total }]
      else
        c :: chunkLoop lines ctype maxLines overlap fuel start'
    else []

/-- Go `chunkByLines(lines, chunkType, maxLines, overlap)`. -/
def chunkByLines (lines : List String) (ctype : String) (maxLines overlap : Nat) :
    List RawChunk :=
  if lines.length ≤ maxLines then
    [⟨joinLines lines, 1, lines.length, ctype⟩]
  else
    chunkLoop lines ctype maxLines overlap lines.length 0

/-- Go's `flush(endLine)` closure in `chunkMarkdown`: emit the current
accumulated chunk unless it is empty. -/
def flushChunk (startLine endLine : Nat) (current : List String) : List RawChunk :=
  if current.isEmpty then [] else [⟨joinLines current, startLine, endLine, "docs"⟩]

/-- The loop of Go `chunkMarkdown`: split on `## ` / `### ` headings,
force-splitting when the current chunk reaches `maxLines`.  `lineNum` is
the 1-based number of the next line to process.

The Go iteration does, in order: (1) if the line is a heading and the
current chunk is non-empty, flush `[startLine, lineNum−1]` and restart at
`lineNum`; (2) append the line to the current chunk; (3) if the current
chunk now has at least `maxLines` lines, flush `[startLine, lineNum]` and
restart at `lineNum+1`.  The four arms below enumerate which of the two
flushes fire (after a heading flush the current chunk is the single new
line, so step (3) fires exactly when `maxLines ≤ 1`). -/
def mdLoop (maxLines : Nat) :
    (lineNum startLine : Nat) → List String → List RawChunk → List String → List RawChunk
  | lineNum, startLine, current, acc, [] =>
    acc ++ flushChunk startLine (lineNum - 1) current
  | lineNum, startLine, current, acc, line :: rest =>
    if (goHasPrefix line "## " || goHasPrefix line "### ") && !current.isEmpty then
      if maxLines ≤ 1 then
        mdLoop maxLines (lineNum + 1) (lineNum + 1) []
          (acc ++ flushChunk startLine (lineNum - 1) current ++
            flushChunk lineNum lineNum [line]) rest
      else
        mdLoop maxLines (lineNum + 1) lineNum [line]
          (acc ++ flushChunk startLine (lineNum - 1) current) rest
    else
      if maxLines ≤ (current ++ [line]).length then
        mdLoop maxLines (lineNum + 1) (lineNum + 1) []
          (acc ++ flushChunk startLine lineNum (current ++ [line])) rest
      else
        mdLoop maxLines (lineNum + 1) startLine (current ++ [line]) acc rest

/-- Go `chunkMarkdown(lines, maxLines)`. -/
def chunkMarkdown (lines : List String) (maxLines : Nat) : List RawChunk :=
  mdLoop maxLines 1 1 [] [] lines

/-- Go `ChunkFile(content, chunkType, maxLines)`: normalise `maxLines`,
split into lines, and dispatch on the chunk type. -/
def ChunkFile (content ctype : String) (maxLines : Int) : List RawChunk :=
  let m : Nat := if maxLines ≤ 0 then DefaultMaxLines else maxLines.toNat
  let lines := splitLines content
  if lines.length = 0 then []
  else if ctype = "docs" then chunkMarkdown lines m
  else chunkByLines lines ctype m DefaultOverlap


/-! ## Memory data model (`internal/memory`, types) -/

/-- `memory.Memory` (the `time.Time` bookkeeping fields, unused by any
verified property, are omitted). -/
structure Memory where
  ID : String
  Content : String
  MemoryType : String
  Importance : ℚ
  Source : String
  RelatedFiles : List String
  deriving Repr, DecidableEq

/-- `memory.Chunk` (again without the `time.Time` field). -/
structure Chunk where
  ID : String
  FileID : String
  Content : String
  StartLine : Int
  EndLine : Int
  ChunkType : String
  deriving Repr, DecidableEq

/-- `memory.File` as used by the context builder (path resolution). -/
structure GoFile where
  ID : String
  Path : String
  Language : String
  ContentHash : String
  deriving Repr, DecidableEq

/-- `memory.ValidMemoryType`. -/
def ValidMemoryType (t : String) : Bool :=
  t = "decision" || t = "convention" || t = "constraint" || t = "note" || t = "todo"

/-- `memory.ClassifyMemoryType`: the rule-based phrase classifier. -/
def ClassifyMemoryType (statement : String) : String :=
  let lower := goToLower statement
  if goHasPrefix lower "todo" || goContains lower "need to " || goContains lower "should " then
    "todo"
  else if goContains lower "decided" || goContains lower "switched" ||
      goContains lower "chose" || goContains lower "migrated" then
    "decision"
  else if goContains lower "must " || goContains lower "never " ||
      goContains lower "always " || goContains lower "only " then
    "constraint"
  else if goContains lower "convention" || goContains lower "pattern" ||
      goContains lower "style" || goContains lower "format" then
    "convention"
  else "note"

/-- `memory.defaultImportance`: kind-determined default importance. -/
def defaultImportance (t : String) : ℚ :=
  if t = "decision" || t = "constraint" then 4/5
  else if t = "convention" then 7/10
  else if t = "todo" then 3/5
  else 1/2

/-! ## Ranker (`internal/memory`, ranker)

Go sorts with `sort.Slice(ranked, less i j := fi > fj)` — an in-place,
unspecified-order sort whose only guarantee is that the result is a
permutation of the input sorted non-increasingly by `FinalScore`.  We
model it with `List.mergeSort` under the comparator
`a ≤ b ↔ b.FinalScore ≤ a.FinalScore`, which realises exactly that
guarantee. -/

structure RankedChunk where
  chunk : Chunk
  FinalScore : ℚ
  deriving Repr, DecidableEq

structure RankedMemory where
  memory : Memory
  FinalScore : ℚ
  deriving Repr, DecidableEq

/-- `Ranker.RankChunks`: `finalScore = sim × (0.3 if test else 1.0)`,
sorted by score descending.  `similarityByID` models the Go map (missing
keys read as the zero value, so a total function). -/
def RankChunks (chunks : List Chunk) (similarityByID : String → ℚ) : List RankedChunk :=
  (chunks.map (fun c =>
    let sim := similarityByID c.ID
    let importance : ℚ := if c.ChunkType = "test" then 3/10 else 1
    RankedChunk.mk c (sim * importance))).mergeSort
    (fun a b => decide (b.FinalScore ≤ a.FinalScore))

/-- `Ranker.RankMemories`: `finalScore = sim × importance`, with zero
importance replaced by 0.5, sorted by score descending. -/
def RankMemories (memories : List Memory) (similarityByID : String → ℚ) : List RankedMemory :=
  (memories.map (fun m =>
    let sim := similarityByID m.ID
    let importance : ℚ := if m.Importance = 0 then 1/2 else m.Importance
    RankedMemory.mk m (sim * importance))).mergeSort
    (fun a b => decide (b.FinalScore ≤ a.FinalScore))

/-! ## Vector store (`internal/memory`, vector store)

SQL effects are modelled by explicit state: the two `vec_*` tables are
association lists keyed by id, and the row set a similarity query
returns is a parameter (`rows`) — it is whatever sqlite-vec produced
(ordered by distance, already k-limited), with `rows = []` also covering
the degraded no-extension path where Go turns the query error into an
empty result. -/

structure VectorMatch where
  ID : String
  Distance : ℚ
  deriving Repr, DecidableEq

/-- The distance-to-similarity conversion the source applies:
`similarity = 1 / (1 + distance)`. -/
def simOfDistance (d : ℚ) : ℚ := 1 / (1 + d)

/-- `scanMatches`: keep the scanned rows whose converted similarity
reaches the threshold. -/
def scanMatches (rows : List VectorMatch) (minSimilarity : ℚ) : List VectorMatch :=
  rows.filter (fun m => decide (minSimilarity ≤ simOfDistance m.Distance))

/-- The two vector tables (`vec_chunks`, `vec_memories`). -/
structure VecTables where
  chunkRows : List (String × List ℚ)
  memoryRows : List (String × List ℚ)
  deriving Repr, DecidableEq

/-- `INSERT ... ON CONFLICT(id) DO UPDATE`: replace the row with this id,
or append a new one. -/
def upsertRow (table : List (String × List ℚ)) (id : String) (emb : List ℚ) :
    List (String × List ℚ) :=
  if table.any (fun r => r.1 = id) then
    table.map (fun r => if r.1 = id then (id, emb) else r)
  else table ++ [(id, emb)]

/-- `VectorStore.UpsertChunkEmbedding`: empty embeddings return success
without touching the table. -/
def UpsertChunkEmbedding (st : VecTables) (id : String) (embedding : List ℚ) :
    VecTables × Option String :=
  if embedding.length = 0 then (st, none)
  else ({ st with chunkRows := upsertRow st.chunkRows id embedding }, none)

/-- `VectorStore.UpsertMemoryEmbedding`. -/
def UpsertMemoryEmbedding (st : VecTables) (id : String) (embedding : List ℚ) :
    VecTables × Option String :=
  if embedding.length = 0 then (st, none)
  else ({ st with memoryRows := upsertRow st.memoryRows id embedding }, none)

/-- `VectorStore.SearchChunks`: empty query vectors return an empty
result and no error before any SQL runs; otherwise the scanned rows are
filtered by the similarity threshold. -/
def SearchChunks (rows : List VectorMatch) (query : List ℚ) (topK : Int)
    (minSimilarity : ℚ) : List VectorMatch × Option String :=
  if query.length = 0 then ([], none)
  else (scanMatches rows minSimilarity, none)

/-- `VectorStore.SearchMemories`. -/
def SearchMemories (rows : List VectorMatch) (query : List ℚ) (topK : Int)
    (minSimilarity : ℚ) : List VectorMatch × Option String :=
  if query.length = 0 then ([], none)
  else (scanMatches rows minSimilarity, none)

/-! ## Store (`internal/memory`, store): `InsertMemory`

The `memories` table row as the INSERT writes it.  Id generation
(`lower(hex(randomblob(16)))`) is modelled by the `newId` parameter; the
schema puts no constraint on `memory_type` (only NOT NULL columns), so
the INSERT itself always succeeds. -/

structure MemoryRow where
  id : String
  content : String
  memory_type : String
  importance : ℚ
  source : String
  related_files : String
  deriving Repr, DecidableEq

/-- Lower-case hex digit. -/
def hexDigit (n : Nat) : Char :=
  if n < 10 then Char.ofNat (48 + n) else Char.ofNat (87 + n)

/-- `encoding/json` escaping of one character (Go escapes the quote, the
backslash, control characters, and — with the default HTML escaping —
the characters `<`, `>`, `&`). -/
def jsonEscapeChar (c : Char) : List Char :=
  if c = '"' then ['\\', '"']
  else if c = '\\' then ['\\', '\\']
  else if c = '\x0a' then ['\\', 'n']
  else if c = '\x0d' then ['\\', 'r']
  else if c = '\t' then ['\\', 't']
  else if c.toNat < 0x20 || c = '<' || c = '>' || c = '&' then
    ['\\', 'u', '0', '0', hexDigit (c.toNat / 16), hexDigit (c.toNat % 16)]
  else [c]

/-- `json.Marshal` of a `[]string`. -/
def jsonMarshalStringList (xs : List String) : String :=
  String.mk (('[' :: joinWithChar ','
    (xs.map (fun s => '"' :: ((s.data.map jsonEscapeChar).flatten ++ ['"'])))) ++ [']'])

/-- `Store.InsertMemory`: serialise `related_files`, default the source
to "user" when empty, insert the row, return the generated id and a nil
error.  No kind validation happens here. -/
def InsertMemory (table : List MemoryRow) (m : Memory) (newId : String) :
    List MemoryRow × String × Option String :=
  let relatedJSON := if 0 < m.RelatedFiles.length then jsonMarshalStringList m.RelatedFiles
    else "[]"
  let source := if m.Source = "" then "user" else m.Source
  (table ++ [⟨newId, m.Content, m.MemoryType, m.Importance, source, relatedJSON⟩],
    newId, none)

/-! ## The three memory-insertion paths and their importance values -/

/-- `Orchestrator.Remember`: validate the kind, then build the memory
value that is handed to `Store.InsertMemory` — importance is always the
kind default.  `none` models the "invalid memory type" error return. -/
def orchestratorRemember (content memType source : String) : Option Memory :=
  if ValidMemoryType memType then
    some ⟨"", content, memType, defaultImportance memType, source, []⟩
  else none

/-- The memory value the `remember` CLI command inserts: base importance
0.6, raised to 0.8 for decisions and constraints. -/
def mkRememberMemory (statement mt : String) : Memory :=
  ⟨"", statement, mt, if mt = "decision" || mt = "constraint" then 4/5 else 3/5, "user", []⟩

/-- The `remember` command's kind selection: an explicit `--type` flag is
lower-cased and validated (`none` models the "unknown memory type"
error); without the flag the rule-based classifier picks the kind. -/
def rememberCmdMemory (statement memTypeFlag : String) : Option Memory :=
  if memTypeFlag ≠ "" then
    let mt := goToLower memTypeFlag
    if ValidMemoryType mt then some (mkRememberMemory statement mt) else none
  else some (mkRememberMemory statement (ClassifyMemoryType statement))

/-! ## Extractor (`internal/memory/extractor.go`, `parseExtractionJSON`)

`encoding/json` is external; the decoder is a function parameter
(`none` = `json.Unmarshal` returned an error). -/

/-- The JSON shape of one extraction candidate (Go `extractCandidate`;
the Go field is named `Type`). -/
structure ExtractCandidate where
  content : String
  ctype : String
  deriving Repr, DecidableEq

/-- Index of the first occurrence of a character, −1 when absent
(Go `strings.Index` for a single-character needle). -/
def idxAux (c : Char) : List Char → Int
  | [] => -1
  | x :: xs =>
    if x = c then 0
    else
      let r := idxAux c xs
      if r = -1 then -1 else r + 1

/-- Go `strings.Index(s, string(c))`. -/
def goIndexChar (s : String) (c : Char) : Int := idxAux c s.data

/-- Go `strings.LastIndex(s, string(c))`. -/
def goLastIndexChar (s : String) (c : Char) : Int :=
  let r := idxAux c s.data.reverse
  if r = -1 then -1 else (s.data.length : Int) - 1 - r

/-- The bracket-slicing front half of `parseExtractionJSON`: find the
first `[` and the last `]`; `none` when no such slice exists.  When the
slice's second character is a quote, normalise by inserting `{` (the
small-model defect fix). -/
def bracketSlice? (raw : String) : Option String :=
  let start := goIndexChar raw '['
  let e := goLastIndexChar raw ']'
  if start = -1 || e ≤ start then none
  else
    let slice := (raw.data.drop start.toNat).take (e.toNat + 1 - start.toNat)
    let slice2 := if 1 < slice.length ∧ slice.get? 1 = some '"' then
        '[' :: '{' :: slice.drop 1
      else slice
    some (String.mk slice2)

/-- The decode loop of `parseExtractionJSON`: cap at `max`, drop empty
contents, re-classify invalid types, stamp the kind default importance
and the "extracted" source. -/
def extractLoop (max : Int) (out : List Memory) : List ExtractCandidate → List Memory
  | [] => out
  | c :: rest =>
    if max ≤ (out.length : Int) then out
    else
      let content := goTrimSpace c.content
      if content = "" then extractLoop max out rest
      else
        let mt0 := goToLower (goTrimSpace c.ctype)
        let mt := if ValidMemoryType mt0 then mt0 else ClassifyMemoryType content
        extractLoop max
          (out ++ [⟨"", content, mt, defaultImportance mt, "extracted", []⟩]) rest

/-- `parseExtractionJSON(raw, max)`: lenient parsing — no slice or a
decode failure yield no memories and no error. -/
def parseExtractionJSON (decode : String → Option (List ExtractCandidate))
    (raw : String) (max : Int) : List Memory × Option String :=
  match bracketSlice? raw with
  | none => ([], none)
  | some slice =>
    match decode slice with
    | none => ([], none)
    | some candidates => (extractLoop max [] candidates, none)

/-! ## Skip-by-name filter (`internal/scanner`, `SkipFile`) -/

/-- Go `filepath.Ext(name)`: the suffix from the final dot of the last
path element ("" when the last element has no dot). -/
def extLoop : List Char → List Char → String
  | [], _ => ""
  | c :: rest, acc =>
    if c = '/' then ""
    else if c = '.' then String.mk ('.' :: acc)
    else extLoop rest (c :: acc)

/-- Go `filepath.Ext`. -/
def goExt (name : String) : String := extLoop name.data.reverse []

/-- The `skipExtensions` set of the source. -/
def skipExtensions : List String :=
  [".png", ".jpg", ".jpeg", ".gif", ".svg", ".ico", ".webp",
   ".pdf", ".doc", ".docx",
   ".zip", ".tar", ".gz", ".tgz", ".rar",
   ".exe", ".bin", ".dll", ".so", ".dylib",
   ".lock", ".sum", ".min.js", ".map"]

/-- The canonical lock filenames of the source's switch. -/
def lockFileNames : List String :=
  ["Gemfile.lock", "package-lock.json", "yarn.lock", "go.sum",
   "Cargo.lock", "composer.lock", "poetry.lock", "Pipfile.lock"]

/-- `scanner.SkipFile(name)`. -/
def SkipFile (name : String) : Bool :=
  skipExtensions.contains (goExt name) || lockFileNames.contains name

/-! ## Context builder (`internal/context`, formatter + builder)

The tokenizer (tiktoken `cl100k_base`) is external to the repository; it
enters as the `count`/`truncateTo` pair of the environment.  Store reads
and the orchestrator call are modelled by the rest of the environment:
each field is the value the corresponding call returns (Go ignores their
errors, turning an error into a zero value / `nil`). -/

/-- `memory.Project` (time fields omitted). -/
structure Project where
  ID : String
  Name : String
  RootPath : String
  TechStack : String
  Architecture : String
  Conventions : String
  FileCount : Int
  ChunkCount : Int
  deriving Repr, DecidableEq

/-- `scanner.TechStack` as the formatter consumes it. -/
structure TechStack where
  Language : String
  Framework : String
  Database : String
  Architecture : String
  TestFramework : String
  DetectedPatterns : List String
  deriving Repr, DecidableEq

/-- ASCII upper-casing of one character. -/
def charToUpper (c : Char) : Char :=
  if 'a' ≤ c ∧ c ≤ 'z' then Char.ofNat (c.toNat - 32) else c

/-- One step of Go `strings.Title`: upper-case a character that follows
a separator (Go treats letters, digits and `_` as non-separators). -/
def titleAux : Bool → List Char → List Char
  | _, [] => []
  | prevSep, c :: cs =>
    (if prevSep then charToUpper c else c) ::
      titleAux (!(c.isAlpha || c.isDigit || c = '_')) cs

/-- Go `strings.Title` (ASCII fragment; the formatter only titles the
five all-letter memory-kind names). -/
def goTitle (s : String) : String := String.mk (titleAux true s.data)

/-- Go `strings.Join(xs, sep)` for a multi-character separator. -/
def joinWithSep (sep : List Char) : List (List Char) → List Char
  | [] => []
  | [l] => l
  | l :: ls => l ++ sep ++ joinWithSep sep ls

/-- Go `strings.Join(xs, ", ")`. -/
def joinCommaSpace (xs : List String) : String :=
  String.mk (joinWithSep [',', ' '] (xs.map String.data))

/-- `Formatter.FormatMemories`: a `## <Kind>s` heading and one bullet per
memory; empty input renders as the empty string. -/
def FormatMemories (memType : String) (items : List Memory) : String :=
  if items.length = 0 then ""
  else
    "## " ++ goTitle memType ++ "s\n\n" ++
      String.join (items.map (fun m => "- " ++ m.Content ++ "\n")) ++ "\n"

/-- The code-fence language tag by chunk type. -/
def chunkLang (chunkType : String) : String :=
  if chunkType = "config" then "yaml"
  else if chunkType = "docs" then "markdown"
  else ""

/-- `Formatter.FormatChunk`: optional `### path (lines a-b)` header plus
a fenced code block. -/
def FormatChunk (c : Chunk) (filePath : String) : String :=
  (if filePath ≠ "" then
      "### " ++ filePath ++ " (lines " ++ toString c.StartLine ++ "-" ++
        toString c.EndLine ++ ")\n"
    else "") ++
  "```" ++ chunkLang c.ChunkType ++ "\n" ++ c.Content ++ "\n```\n\n"

/-- `Formatter.FormatProjectProfile`. -/
def FormatProjectProfile (proj : Project) (ts : TechStack) : String :=
  "## Project Profile\n\n" ++
  "- **Project:** " ++ proj.Name ++ "\n" ++
  (if ts.Language ≠ "" then "- **Language:** " ++ ts.Language ++ "\n" else "") ++
  (if ts.Framework ≠ "" then "- **Framework:** " ++ ts.Framework ++ "\n" else "") ++
  (if ts.Database ≠ "" then "- **Database:** " ++ ts.Database ++ "\n" else "") ++
  (if ts.Architecture ≠ "" then "- **Architecture:** " ++ ts.Architecture ++ "\n" else "") ++
  (if ts.TestFramework ≠ "" then "- **Tests:** " ++ ts.TestFramework ++ "\n" else "") ++
  (if 0 < ts.DetectedPatterns.length then
      "- **Patterns:** " ++ joinCommaSpace ts.DetectedPatterns ++ "\n"
    else "")

/-- `Formatter.FormatSystemPrompt`. -/
def FormatSystemPrompt (proj : Project) (ts : TechStack)
    (conventions constraints : List Memory) : String :=
  "You are an AI assistant working on the project \"" ++ proj.Name ++ "\".\n\n" ++
  FormatProjectProfile proj ts ++
  (if 0 < conventions.length then FormatMemories "convention" conventions else "") ++
  (if 0 < constraints.length then FormatMemories "constraint" constraints else "") ++
  "\nWhen answering:\n" ++
  "1. Respect established conventions and constraints\n" ++
  "2. Reference specific files and line numbers when relevant\n" ++
  "3. Be consistent with existing patterns in the codebase\n" ++
  "4. Flag if a suggestion contradicts stored decisions or constraints\n"

/-- `context.BuildOptions`. -/
structure BuildOptions where
  Question : String := ""
  MaxTokens : Int := 0
  TopKChunks : Int := 0
  TopKMemories : Int := 0
  SimilarityThreshold : ℚ := 0
  ExtraFiles : List String := []

/-- `context.BuiltContext`. -/
structure BuiltContext where
  SystemPrompt : String
  ContextText : String
  TokensUsed : Int
  ChunksUsed : Nat
  MemoriesUsed : Nat

/-- `memory.RetrievalResult`. -/
structure RetrievalResult where
  Chunks : List Chunk
  Memories : List Memory

/-- The environment `Builder.Build` runs in: the tokenizer pair and the
results of the store/orchestrator calls the method makes.  (`retrieve`
is an `Option` because Go ignores the orchestrator error and guards on
`retrieval != nil`.) -/
structure BuildEnv where
  count : String → Int
  truncateTo : String → Int → String
  getProject : Option Project
  techStackFromJSON : String → TechStack
  listMemories : String → List Memory
  retrieve : Option RetrievalResult
  getFileByID : String → Option GoFile

/-- One appended context block, instrumented with the value `remaining`
had when the block was evaluated and whether it came from the truncation
branch.  `Build` itself only keeps the block strings. -/
structure BlockTrace where
  block : String
  remBefore : Int
  truncated : Bool

/-- Step 4 of `Build`: the pinned decision block, appended when it fits. -/
def decisionTrace (count : String → Int) (decisions : List Memory) (remaining : Int) :
    List BlockTrace × Int :=
  if 0 < decisions.length then
    let block := FormatMemories "decision" decisions
    let tokens := count block
    if tokens ≤ remaining then ([⟨block, remaining, false⟩], remaining - tokens)
    else ([], remaining)
  else ([], remaining)

/-- The retrieved-memories loop of `Build`: skip conventions and
constraints, append every block that fits. -/
def memTrace (count : String → Int) : Int → List Memory → List BlockTrace × Int × Nat
  | remaining, [] => ([], remaining, 0)
  | remaining, m :: rest =>
    if m.MemoryType = "convention" || m.MemoryType = "constraint" then
      memTrace count remaining rest
    else
      let block := "- " ++ m.Content ++ "\n"
      let tokens := count block
      if tokens ≤ remaining then
        let r := memTrace count (remaining - tokens) rest
        (⟨block, remaining, false⟩ :: r.1, r.2.1, r.2.2 + 1)
      else memTrace count remaining rest

/-- The retrieved-chunks loop of `Build`: append fitting blocks; on the
first non-fitting block, if more than 100 tokens remain, truncate that
chunk's content to `remaining − 50` tokens, append the re-formatted
block unmeasured, zero the budget and stop; otherwise stop. -/
def chunkTrace (env : BuildEnv) : Int → List Chunk → List BlockTrace × Int × Nat
  | remaining, [] => ([], remaining, 0)
  | remaining, c :: rest =>
    let filePath :=
      match env.getFileByID c.FileID with
      | some f => f.Path
      | none => ""
    let block := FormatChunk c filePath
    let tokens := env.count block
    if tokens ≤ remaining then
      let r := chunkTrace env (remaining - tokens) rest
      (⟨block, remaining, false⟩ :: r.1, r.2.1, r.2.2 + 1)
    else if 100 < remaining then
      let tblock :=
        FormatChunk { c with Content := env.truncateTo c.Content (remaining - 50) } filePath
      ([⟨tblock, remaining, true⟩], 0, 1)
    else ([], remaining, 0)

/-- The budgeted phase of `Build` (steps 4 and 5), instrumented with the
trace: appended blocks, final `remaining`, chunksUsed, memoriesUsed. -/
def buildTrace (env : BuildEnv) (opts : BuildOptions) :
    List BlockTrace × Int × Nat × Nat :=
  let maxT := if opts.MaxTokens = 0 then 8000 else opts.MaxTokens
  let decisions := env.listMemories "decision"
  let d := decisionTrace env.count decisions maxT
  match env.retrieve with
  | none => (d.1, d.2, 0, 0)
  | some r =>
    let mt := memTrace env.count d.2 r.Memories
    let ct := chunkTrace env mt.2.1 r.Chunks
    (d.1 ++ mt.1 ++ ct.1, ct.2.1, ct.2.2, mt.2.2)

/-- `Builder.Build`: default the options, build the system prompt from
profile + conventions + constraints, run the budgeted phase, join the
appended blocks with newlines, and report
`tokensUsed = maxTokens − remaining`. -/
def Build (env : BuildEnv) (opts : BuildOptions) : BuiltContext :=
  let maxT := if opts.MaxTokens = 0 then 8000 else opts.MaxTokens
  let proj :=
    match env.getProject with
    | some p => p
    | none => ⟨"", "unknown", "", "", "", "", 0, 0⟩
  let ts := env.techStackFromJSON proj.TechStack
  let conventions := env.listMemories "convention"
  let constraints := env.listMemories "constraint"
  let t := buildTrace env opts
  { SystemPrompt := FormatSystemPrompt proj ts conventions constraints
    ContextText := joinLines (t.1.map (fun e => e.block))
    TokensUsed := maxT - t.2.1
    ChunksUsed := t.2.2.1
    MemoriesUsed := t.2.2.2 }

/-- A 200-character file path, used to exercise the truncation branch of
the context builder. -/
def cxPath : String := String.mk (List.replicate 200 'p')

/-- A 300-character chunk content. -/
def cxContent : String := String.mk (List.replicate 300 'q')

/-- A concrete builder environment: token counts are string lengths and
truncation keeps the first n characters — a pair satisfying every
tokenizer law the spec states (counts are non-negative, truncating to n
tokens yields at most n, text within budget is returned unchanged).  The
store resolves the single retrieved chunk to a file with the
200-character path. -/
def cxEnv : BuildEnv where
  count := fun s => (s.length : Int)
  truncateTo := fun s n => String.mk (s.data.take n.toNat)
  getProject := none
  techStackFromJSON := fun _ => ⟨"", "", "", "", "", []⟩
  listMemories := fun _ => []
  retrieve := some ⟨[⟨"c1", "f1", cxContent, 1, 300, "code"⟩], []⟩
  getFileByID := fun _ => some ⟨"f1", cxPath, "go", "h"⟩

/-- Options putting the budget at 101 tokens, so the chunk loop reaches
its truncation branch (`remaining > 100`). -/
def cxOpts : BuildOptions := { MaxTokens := 101 }

/-! ### Chunker invariants -/

/-- Invariant of the `chunkByLines` loop: starting at 0-based line
`start` with enough fuel, every emitted chunk lies inside
`[start+1, total]`, and the emitted chunks cover `[start+1, total]`. -/
lemma chunkLoop_spec (lines : List String) (ctype : String) (maxLines overlap : Nat)
    (hm : 0 < maxLines) :
    ∀ fuel start, lines.length - start ≤ fuel →
      (∀ c ∈ chunkLoop lines ctype maxLines overlap fuel start,
          start + 1 ≤ c.startLine ∧ c.startLine ≤ c.endLine ∧ c.endLine ≤ lines.length) ∧
      (start < lines.length → ∀ i, start + 1 ≤ i → i ≤ lines.length →
          ∃ c ∈ chunkLoop lines ctype maxLines overlap fuel start,
            c.startLine ≤ i ∧ i ≤ c.endLine) := by
  intro fuel
  induction fuel with
  | zero =>
    intro start hf
    refine ⟨by simp [chunkLoop], ?_⟩
    intro hs
    omega
  | succ fuel ih =>
    intro start hf
    by_cases hs : start < lines.length
    · have hadv1 : 1 ≤ (if maxLines ≤ overlap then maxLines else maxLines - overlap) := by
        split <;> omega
      have hadvle : (if maxLines ≤ overlap then maxLines else maxLines - overlap) ≤ maxLines := by
        split <;> omega
      by_cases hmerge :
          start + (if maxLines ≤ overlap then maxLines else maxLines - overlap) < lines.length ∧
          lines.length - (start + (if maxLines ≤ overlap then maxLines else maxLines - overlap))
            < overlap
      · have hunfold : chunkLoop lines ctype maxLines overlap (fuel + 1) start =
            [⟨windowContent lines start lines.length, start + 1, lines.length, ctype⟩] := by
          simp only [chunkLoop]
          rw [if_pos hs, if_pos hmerge]
        rw [hunfold]
        constructor
        · intro c hc
          simp only [List.mem_singleton] at hc
          subst hc
          simp only []
          omega
        · intro _ i hi1 hi2
          exact ⟨_, List.mem_singleton_self _, by simpa using And.intro hi1 hi2⟩
      · have hunfold : chunkLoop lines ctype maxLines overlap (fuel + 1) start =
            ⟨windowContent lines start (min (start + maxLines) lines.length), start + 1,
                min (start + maxLines) lines.length, ctype⟩ ::
              chunkLoop lines ctype maxLines overlap fuel
                (start + (if maxLines ≤ overlap then maxLines else maxLines - overlap)) := by
          simp only [chunkLoop]
          rw [if_pos hs, if_neg hmerge]
        have hrec := ih (start + (if maxLines ≤ overlap then maxLines else maxLines - overlap))
          (by omega)
        rw [hunfold]
        constructor
        · intro c hc
          rcases List.mem_cons.mp hc with hc | hc
          · subst hc
            simp only []
            omega
          · have := hrec.1 c hc
            omega
        · intro _ i hi1 hi2
          by_cases hie : i ≤ min (start + maxLines) lines.length
          · exact ⟨_, List.mem_cons_self _ _, by simp only []; omega⟩
          · -- the recursion covers i: the next window starts no later than e+1
            have hlt :
                start + (if maxLines ≤ overlap then maxLines else maxLines - overlap)
                  < lines.length := by
              omega
            obtain ⟨c, hc, hcov⟩ := hrec.2 hlt i (by omega) hi2
            exact ⟨c, List.mem_cons_of_mem _ hc, hcov⟩
    · have hunfold : chunkLoop lines ctype maxLines overlap (fuel + 1) start = [] := by
        simp only [chunkLoop]
        rw [if_neg hs]
      refine ⟨by simp [hunfold], ?_⟩
      intro hs'
      exact absurd hs' hs

/-- `chunkByLines` on a non-empty line list: all chunks lie inside
`[1, n]` and cover `[1, n]`. -/
lemma chunkByLines_spec (lines : List String) (ctype : String) (maxLines overlap : Nat)
    (hm : 0 < maxLines) (hl : 0 < lines.length) :
    (∀ c ∈ chunkByLines lines ctype maxLines overlap,
        1 ≤ c.startLine ∧ c.startLine ≤ c.endLine ∧ c.endLine ≤ lines.length) ∧
    (∀ i, 1 ≤ i → i ≤ lines.length →
        ∃ c ∈ chunkByLines lines ctype maxLines overlap,
          c.startLine ≤ i ∧ i ≤ c.endLine) := by
  unfold chunkByLines
  by_cases hle : lines.length ≤ maxLines
  · rw [if_pos hle]
    constructor
    · intro c hc
      simp only [List.mem_singleton] at hc
      subst hc
      simp only []
      omega
    · intro i hi1 hi2
      exact ⟨_, List.mem_singleton_self _, by simpa using And.intro hi1 hi2⟩
  · rw [if_neg hle]
    have h := chunkLoop_spec lines ctype maxLines overlap hm lines.length 0 (by omega)
    exact ⟨fun c hc => by have := h.1 c hc; omega, fun i hi1 hi2 => h.2 (by omega) i hi1 hi2⟩

/-- Invariant of the `chunkMarkdown` loop.  With `lineNum` the 1-based
number of the next line, `current` holding lines `[startLine, lineNum−1]`
and `acc` already covering `[1, startLine−1]`, the loop's output covers
`[1, n]` for `n = lineNum − 1 + |rest|` and stays inside it. -/
lemma mdLoop_spec (maxLines : Nat) :
    ∀ (rest : List String) (lineNum startLine : Nat) (current : List String)
      (acc : List RawChunk),
      startLine + current.length = lineNum →
      1 ≤ startLine →
      (∀ c ∈ acc, 1 ≤ c.startLine ∧ c.startLine ≤ c.endLine ∧ c.endLine + 1 ≤ startLine) →
      (∀ i, 1 ≤ i → i + 1 ≤ startLine → ∃ c ∈ acc, c.startLine ≤ i ∧ i ≤ c.endLine) →
      (∀ c ∈ mdLoop maxLines lineNum startLine current acc rest,
          1 ≤ c.startLine ∧ c.startLine ≤ c.endLine ∧
            c.endLine ≤ lineNum - 1 + rest.length) ∧
      (∀ i, 1 ≤ i → i ≤ lineNum - 1 + rest.length →
          ∃ c ∈ mdLoop maxLines lineNum startLine current acc rest,
            c.startLine ≤ i ∧ i ≤ c.endLine) := by
  intro rest
  induction rest with
  | nil =>
    intro lineNum startLine current acc hcur hstart hacc hcov
    simp only [mdLoop, List.length_nil, Nat.add_zero]
    by_cases hc : current.isEmpty
    · have hflush : flushChunk startLine (lineNum - 1) current = [] := by
        simp [flushChunk, hc]
      rw [hflush, List.append_nil]
      have hcur0 : current.length = 0 := by
        cases current with
        | nil => rfl
        | cons a l => simp [List.isEmpty] at hc
      constructor
      · intro c hcmem
        have := hacc c hcmem
        omega
      · intro i hi1 hi2
        exact hcov i hi1 (by omega)
    · have hflush : flushChunk startLine (lineNum - 1) current =
          [⟨joinLines current, startLine, lineNum - 1, "docs"⟩] := by
        simp [flushChunk, hc]
      have hcur1 : 1 ≤ current.length := by
        cases current with
        | nil => simp [List.isEmpty] at hc
        | cons a l => simp
      rw [hflush]
      constructor
      · intro c hcmem
        rcases List.mem_append.mp hcmem with h | h
        · have := hacc c h
          omega
        · simp only [List.mem_singleton] at h
          subst h
          simp only []
          omega
      · intro i hi1 hi2
        by_cases hlo : i + 1 ≤ startLine
        · obtain ⟨c, hc', hcov'⟩ := hcov i hi1 hlo
          exact ⟨c, List.mem_append_left _ hc', hcov'⟩
        · refine ⟨_, List.mem_append_right _ (List.mem_singleton_self _), ?_⟩
          simp only []
          omega
  | cons line rest ih =>
    intro lineNum startLine current acc hcur hstart hacc hcov
    simp only [mdLoop]
    have hn : lineNum - 1 + (line :: rest).length = (lineNum + 1) - 1 + rest.length := by
      simp [List.length_cons]
      omega
    by_cases hhead : ((goHasPrefix line "## " || goHasPrefix line "### ") &&
        !current.isEmpty) = true
    · have hne : ¬ current.isEmpty := by
        simp only [Bool.and_eq_true, Bool.not_eq_true'] at hhead
        simp [hhead.2]
      have hcur1 : 1 ≤ current.length := by
        cases current with
        | nil => simp [List.isEmpty] at hne
        | cons a l => simp
      have hflush : flushChunk startLine (lineNum - 1) current =
          [⟨joinLines current, startLine, lineNum - 1, "docs"⟩] := by
        simp only [flushChunk]
        rw [if_neg hne]
      rw [if_pos hhead]
      by_cases hm1 : maxLines ≤ 1
      · rw [if_pos hm1]
        have hflush2 : flushChunk lineNum lineNum [line] =
            [⟨joinLines [line], lineNum, lineNum, "docs"⟩] := by
          simp [flushChunk]
        rw [hflush, hflush2, hn]
        apply ih (lineNum + 1) (lineNum + 1) [] _ (by simp) (by omega)
        · intro c hcmem
          rcases List.mem_append.mp hcmem with h | h
          · rcases List.mem_append.mp h with h' | h'
            · have := hacc c h'
              omega
            · simp only [List.mem_singleton] at h'
              subst h'
              simp only []
              omega
          · simp only [List.mem_singleton] at h
            subst h
            simp only []
            omega
        · intro i hi1 hi2
          by_cases hlo : i + 1 ≤ startLine
          · obtain ⟨c, hc', hcov'⟩ := hcov i hi1 hlo
            exact ⟨c, List.mem_append_left _ (List.mem_append_left _ hc'), hcov'⟩
          · by_cases hmid : i + 1 ≤ lineNum
            · refine ⟨_, List.mem_append_left _
                (List.mem_append_right _ (List.mem_singleton_self _)), ?_⟩
              simp only []
              omega
            · refine ⟨_, List.mem_append_right _ (List.mem_singleton_self _), ?_⟩
              simp only []
              omega
      · rw [if_neg hm1]
        rw [hflush, hn]
        apply ih (lineNum + 1) lineNum [line] _ (by simp) (by omega)
        · intro c hcmem
          rcases List.mem_append.mp hcmem with h | h
          · have := hacc c h
            omega
          · simp only [List.mem_singleton] at h
            subst h
            simp only []
            omega
        · intro i hi1 hi2
          by_cases hlo : i + 1 ≤ startLine
          · obtain ⟨c, hc', hcov'⟩ := hcov i hi1 hlo
            exact ⟨c, List.mem_append_left _ hc', hcov'⟩
          · refine ⟨_, List.mem_append_right _ (List.mem_singleton_self _), ?_⟩
            simp only []
            omega
    · rw [if_neg hhead]
      by_cases hforce : maxLines ≤ (current ++ [line]).length
      · rw [if_pos hforce]
        have hflush : flushChunk startLine lineNum (current ++ [line]) =
            [⟨joinLines (current ++ [line]), startLine, lineNum, "docs"⟩] := by
          simp [flushChunk]
        rw [hflush, hn]
        apply ih (lineNum + 1) (lineNum + 1) [] _ (by simp) (by omega)
        · intro c hcmem
          rcases List.mem_append.mp hcmem with h | h
          · have := hacc c h
            omega
          · simp only [List.mem_singleton] at h
            subst h
            simp only []
            omega
        · intro i hi1 hi2
          by_cases hlo : i + 1 ≤ startLine
          · obtain ⟨c, hc', hcov'⟩ := hcov i hi1 hlo
            exact ⟨c, List.mem_append_left _ hc', hcov'⟩
          · refine ⟨_, List.mem_append_right _ (List.mem_singleton_self _), ?_⟩
            simp only []
            omega
      · rw [if_neg hforce]
        rw [hn]
        apply ih (lineNum + 1) startLine (current ++ [line]) _ (by simp; omega) (by omega)
          hacc hcov

/-- `chunkMarkdown`: all chunks lie inside `[1, n]` and cover `[1, n]`. -/
lemma chunkMarkdown_spec (lines : List String) (maxLines : Nat) :
    (∀ c ∈ chunkMarkdown lines maxLines,
        1 ≤ c.startLine ∧ c.startLine ≤ c.endLine ∧ c.endLine ≤ lines.length) ∧
    (∀ i, 1 ≤ i → i ≤ lines.length →
        ∃ c ∈ chunkMarkdown lines maxLines, c.startLine ≤ i ∧ i ≤ c.endLine) := by
  have h := mdLoop_spec maxLines lines 1 1 [] [] (by simp) le_rfl (by simp) (by omega)
  simpa [chunkMarkdown] using h


/-! ### Extractor loop invariants -/

/-- The rule-based classifier only produces valid kinds. -/
lemma validMemoryType_classify (s : String) :
    ValidMemoryType (ClassifyMemoryType s) = true := by
  simp only [ClassifyMemoryType]
  split_ifs <;> decide

/-- Every memory the extract loop emits either was already accumulated
or comes from one of the candidates: trimmed non-empty content, source
"extracted", kind-default importance, and the kind given by the
valid-or-reclassify rule. -/
lemma extractLoop_mem (max : Int) :
    ∀ (cands : List ExtractCandidate) (out : List Memory) (m : Memory),
      m ∈ extractLoop max out cands →
      m ∈ out ∨ ∃ c ∈ cands, m.Content = goTrimSpace c.content ∧ m.Content ≠ "" ∧
        m.Source = "extracted" ∧ m.Importance = defaultImportance m.MemoryType ∧
        m.MemoryType =
          (if ValidMemoryType (goToLower (goTrimSpace c.ctype)) then
              goToLower (goTrimSpace c.ctype)
            else ClassifyMemoryType m.Content) := by
  intro cands
  induction cands with
  | nil =>
    intro out m hm
    exact Or.inl hm
  | cons c rest ih =>
    intro out m hm
    simp only [extractLoop] at hm
    by_cases hmax : max ≤ (out.length : Int)
    · rw [if_pos hmax] at hm
      exact Or.inl hm
    · rw [if_neg hmax] at hm
      by_cases hc : goTrimSpace c.content = ""
      · rw [if_pos hc] at hm
        rcases ih out m hm with h | ⟨c', hc', hrest⟩
        · exact Or.inl h
        · exact Or.inr ⟨c', List.mem_cons_of_mem _ hc', hrest⟩
      · rw [if_neg hc] at hm
        rcases ih _ m hm with h | ⟨c', hc', hrest⟩
        · rcases List.mem_append.mp h with h' | h'
          · exact Or.inl h'
          · simp only [List.mem_singleton] at h'
            subst h'
            exact Or.inr ⟨c, List.mem_cons_self _ _, rfl, hc, rfl, rfl, rfl⟩
        · exact Or.inr ⟨c', List.mem_cons_of_mem _ hc', hrest⟩

/-- The extract loop caps the output length at `max` (0 when `max` is
not positive). -/
lemma extractLoop_length (max : Int) :
    ∀ (cands : List ExtractCandidate) (out : List Memory),
      out.length ≤ max.toNat → (extractLoop max out cands).length ≤ max.toNat := by
  intro cands
  induction cands with
  | nil =>
    intro out h
    exact h
  | cons c rest ih =>
    intro out h
    simp only [extractLoop]
    by_cases hmax : max ≤ (out.length : Int)
    · rw [if_pos hmax]
      exact h
    · rw [if_neg hmax]
      by_cases hc : goTrimSpace c.content = ""
      · rw [if_pos hc]
        exact ih out h
      · rw [if_neg hc]
        apply ih
        simp only [List.length_append, List.length_cons, List.length_nil]
        omega

/-! ## Claim theorems -/

set_option maxRecDepth 8000 in
/-- Claim C2 (code bug): chunking a 155-line file with max-lines 150 and
overlap 10 under a non-docs chunk type does NOT produce the single
merged chunk `[1..155]` the spec's tiny-tail scenario expects: after the
first window the loop is at line 140, the remaining tail has 15 ≥ 10
lines, so no merge fires and two chunks `[1..150]`, `[141..155]` come
back.  This contradicts the chunker test's own comment, which calls the
5 lines beyond the first window a tiny tail that "should be merged". -/
theorem C2_chunk155_two_chunks :
    ((ChunkFile (joinLines (List.replicate 155 "x")) "code" 150).map
        (fun c => (c.startLine, c.endLine))) = [(1, 150), (141, 155)] ∧
    (ChunkFile (joinLines (List.replicate 155 "x")) "code" 150).length ≠ 1 := by
  constructor
  · decide
  · decide

/-- Claim C3 (confirmed): every chunk the chunker returns on a file with
n lines satisfies `1 ≤ start ≤ end ≤ n`, and the union of the returned
line ranges covers `[1..n]` — in the fixed-window mode and in the
markdown-heading mode alike. -/
theorem C3_chunk_bounds_coverage (content ctype : String) (maxLines : Int) :
    (∀ c ∈ ChunkFile content ctype maxLines,
        1 ≤ c.startLine ∧ c.startLine ≤ c.endLine ∧
          c.endLine ≤ (splitLines content).length) ∧
    (∀ i, 1 ≤ i → i ≤ (splitLines content).length →
        ∃ c ∈ ChunkFile content ctype maxLines, c.startLine ≤ i ∧ i ≤ c.endLine) := by
  have hm1 : 0 < (if maxLines ≤ 0 then DefaultMaxLines else maxLines.toNat) := by
    split
    · norm_num [DefaultMaxLines]
    · omega
  unfold ChunkFile
  by_cases h0 : (splitLines content).length = 0
  · rw [if_pos h0]
    exact ⟨by simp, fun i hi1 hi2 => by omega⟩
  · rw [if_neg h0]
    by_cases hdocs : ctype = "docs"
    · rw [if_pos hdocs]
      exact chunkMarkdown_spec _ _
    · rw [if_neg hdocs]
      exact chunkByLines_spec _ ctype _ DefaultOverlap hm1 (by omega)

/-- Witness for C3: on the concrete three-line file, line 2 is covered
by a returned chunk. -/
theorem C3_chunk_bounds_coverage_witness :
    ∃ c ∈ ChunkFile "alpha\nbeta\ngamma" "code" 150,
      c.startLine ≤ 2 ∧ 2 ≤ c.endLine :=
  (C3_chunk_bounds_coverage "alpha\nbeta\ngamma" "code" 150).2 2 (by decide) (by decide)

/-- Claim C4 (counterexample): the ranker does not use
`max(importance, 0.5)` for memories — a memory with the nonzero
importance 0.3 and similarity 1 gets finalScore 0.3, while the claimed
formula demands `1 × max(0.3, 0.5) = 0.5`. -/
theorem C4_rank_counterexample :
    ((RankMemories [⟨"m1", "c", "note", 3/10, "user", []⟩] (fun _ => 1)).map
        (fun rm => rm.FinalScore)) = [(3 : ℚ)/10] ∧
    (3 : ℚ)/10 ≠ 1 * max (3/10) (1/2) := by
  constructor
  · unfold RankMemories
    have hp := List.mergeSort_perm
      ([(⟨"m1", "c", "note", 3/10, "user", []⟩ : Memory)].map (fun m =>
        let sim := (fun _ : String => (1 : ℚ)) m.ID
        let importance : ℚ := if m.Importance = 0 then 1/2 else m.Importance
        RankedMemory.mk m (sim * importance)))
      (fun a b => decide (b.FinalScore ≤ a.FinalScore))
    simp only [List.map_cons, List.map_nil] at hp
    rw [List.perm_singleton] at hp
    simp only [List.map_cons, List.map_nil]
    rw [hp]
    have h310 : ¬ ((3 : ℚ)/10 = 0) := by norm_num
    simp only [List.map_cons, List.map_nil, if_neg h310]
    norm_num
  · norm_num

/-- Claim C4 (amended): chunk scores are `sim × (0.3 if test else 1)`;
memory scores are `sim × importance` with only a ZERO importance
replaced by 0.5 (a nonzero importance below 0.5 is used as-is); both
rankers return a permutation of their scored inputs sorted by
finalScore descending. -/
theorem C4_rank_amended (chunks : List Chunk) (memories : List Memory)
    (simC simM : String → ℚ) :
    (∀ rc ∈ RankChunks chunks simC,
        rc.FinalScore =
          simC rc.chunk.ID * (if rc.chunk.ChunkType = "test" then 3/10 else 1)) ∧
    List.Sorted (fun a b => b.FinalScore ≤ a.FinalScore) (RankChunks chunks simC) ∧
    ((RankChunks chunks simC).map (fun rc => rc.chunk)).Perm chunks ∧
    (∀ rm ∈ RankMemories memories simM,
        rm.FinalScore =
          simM rm.memory.ID *
            (if rm.memory.Importance = 0 then 1/2 else rm.memory.Importance)) ∧
    List.Sorted (fun a b => b.FinalScore ≤ a.FinalScore) (RankMemories memories simM) ∧
    ((RankMemories memories simM).map (fun rm => rm.memory)).Perm memories := by
  have htrans : ∀ a b c : RankedChunk,
      decide (b.FinalScore ≤ a.FinalScore) = true →
      decide (c.FinalScore ≤ b.FinalScore) = true →
      decide (c.FinalScore ≤ a.FinalScore) = true := by
    intro a b c hab hbc
    simp only [decide_eq_true_eq] at *
    exact le_trans hbc hab
  have htotal : ∀ a b : RankedChunk,
      (decide (b.FinalScore ≤ a.FinalScore) || decide (a.FinalScore ≤ b.FinalScore)) = true := by
    intro a b
    simp only [Bool.or_eq_true, decide_eq_true_eq]
    exact le_total _ _
  have htransM : ∀ a b c : RankedMemory,
      decide (b.FinalScore ≤ a.FinalScore) = true →
      decide (c.FinalScore ≤ b.FinalScore) = true →
      decide (c.FinalScore ≤ a.FinalScore) = true := by
    intro a b c hab hbc
    simp only [decide_eq_true_eq] at *
    exact le_trans hbc hab
  have htotalM : ∀ a b : RankedMemory,
      (decide (b.FinalScore ≤ a.FinalScore) || decide (a.FinalScore ≤ b.FinalScore)) = true := by
    intro a b
    simp only [Bool.or_eq_true, decide_eq_true_eq]
    exact le_total _ _
  refine ⟨?_, ?_, ?_, ?_, ?_, ?_⟩
  · intro rc hrc
    unfold RankChunks at hrc
    have hmem := (List.mergeSort_perm _ _).mem_iff.mp hrc
    obtain ⟨c, _, hc⟩ := List.mem_map.mp hmem
    subst hc
    rfl
  · unfold RankChunks
    have h := List.sorted_mergeSort htrans htotal
      (chunks.map (fun c =>
        let sim := simC c.ID
        let importance : ℚ := if c.ChunkType = "test" then 3/10 else 1
        RankedChunk.mk c (sim * importance)))
    exact h.imp (fun hab => by simpa using hab)
  · unfold RankChunks
    have h := (List.mergeSort_perm
      (chunks.map (fun c =>
        let sim := simC c.ID
        let importance : ℚ := if c.ChunkType = "test" then 3/10 else 1
        RankedChunk.mk c (sim * importance)))
      (fun a b => decide (b.FinalScore ≤ a.FinalScore))).map (fun rc => rc.chunk)
    refine h.trans ?_
    clear h
    have he : List.map (fun rc : RankedChunk => rc.chunk)
        (List.map (fun c : Chunk =>
          let sim := simC c.ID
          let importance : ℚ := if c.ChunkType = "test" then 3/10 else 1
          RankedChunk.mk c (sim * importance)) chunks) = chunks := by
      induction chunks with
      | nil => rfl
      | cons c l ih => exact congrArg (List.cons c) ih
    rw [he]
  · intro rm hrm
    unfold RankMemories at hrm
    have hmem := (List.mergeSort_perm _ _).mem_iff.mp hrm
    obtain ⟨m, _, hm⟩ := List.mem_map.mp hmem
    subst hm
    rfl
  · unfold RankMemories
    have h := List.sorted_mergeSort htransM htotalM
      (memories.map (fun m =>
        let sim := simM m.ID
        let importance : ℚ := if m.Importance = 0 then 1/2 else m.Importance
        RankedMemory.mk m (sim * importance)))
    exact h.imp (fun hab => by simpa using hab)
  · unfold RankMemories
    have h := (List.mergeSort_perm
      (memories.map (fun m =>
        let sim := simM m.ID
        let importance : ℚ := if m.Importance = 0 then 1/2 else m.Importance
        RankedMemory.mk m (sim * importance)))
      (fun a b => decide (b.FinalScore ≤ a.FinalScore))).map (fun rm => rm.memory)
    refine h.trans ?_
    clear h
    have he : List.map (fun rm : RankedMemory => rm.memory)
        (List.map (fun m : Memory =>
          let sim := simM m.ID
          let importance : ℚ := if m.Importance = 0 then 1/2 else m.Importance
          RankedMemory.mk m (sim * importance)) memories) = memories := by
      induction memories with
      | nil => rfl
      | cons m l ih => exact congrArg (List.cons m) ih
    rw [he]

/-- Witness for C4 (amended): the scored wrapper of a concrete non-test
chunk is in the ranked output with finalScore `1 × 1`. -/
theorem C4_rank_amended_witness :
    (RankedChunk.mk ⟨"c1", "f", "x", 1, 1, "code"⟩ ((1 : ℚ) * 1)).FinalScore =
      (1 : ℚ) * (if ("code" : String) = "test" then 3/10 else 1) := by
  have hmem : RankedChunk.mk ⟨"c1", "f", "x", 1, 1, "code"⟩ ((1 : ℚ) * 1) ∈
      RankChunks [⟨"c1", "f", "x", 1, 1, "code"⟩] (fun _ => 1) := by
    unfold RankChunks
    refine (List.mergeSort_perm _ _).mem_iff.mpr ?_
    simp only [List.map_cons, List.map_nil]
    exact List.mem_singleton_self _
  exact (C4_rank_amended [⟨"c1", "f", "x", 1, 1, "code"⟩] [] (fun _ => 1) (fun _ => 1)).1
    _ hmem

/-- Claim C5 (confirmed): every match either vector search returns
satisfies `sim ≥ minSimilarity` with `sim = 1/(1+distance)`;
`sim 0 = 1`, `sim 1 = 1/2`; and over non-negative distances the 0.3
threshold keeps exactly the rows with distance ≤ 7/3. -/
theorem C5_similarity_threshold (rows : List VectorMatch) (query : List ℚ)
    (topK : Int) (minSimilarity : ℚ) :
    (∀ m ∈ (SearchChunks rows query topK minSimilarity).1,
        minSimilarity ≤ simOfDistance m.Distance) ∧
    (∀ m ∈ (SearchMemories rows query topK minSimilarity).1,
        minSimilarity ≤ simOfDistance m.Distance) ∧
    simOfDistance 0 = 1 ∧ simOfDistance 1 = 1/2 ∧
    ((∀ m ∈ rows, 0 ≤ m.Distance) →
      ∀ m, m ∈ scanMatches rows (3/10) ↔ m ∈ rows ∧ m.Distance ≤ 7/3) := by
  have hscan : ∀ m ∈ scanMatches rows minSimilarity,
      minSimilarity ≤ simOfDistance m.Distance := by
    intro m hm
    have := (List.mem_filter.mp hm).2
    simpa using this
  refine ⟨?_, ?_, ?_, ?_, ?_⟩
  · intro m hm
    unfold SearchChunks at hm
    by_cases hq : query.length = 0
    · rw [if_pos hq] at hm
      simp at hm
    · rw [if_neg hq] at hm
      exact hscan m hm
  · intro m hm
    unfold SearchMemories at hm
    by_cases hq : query.length = 0
    · rw [if_pos hq] at hm
      simp at hm
    · rw [if_neg hq] at hm
      exact hscan m hm
  · norm_num [simOfDistance]
  · norm_num [simOfDistance]
  · intro hpos m
    constructor
    · intro hm
      have h1 := (List.mem_filter.mp hm).1
      have h2 := (List.mem_filter.mp hm).2
      refine ⟨h1, ?_⟩
      have hd := hpos m h1
      have hlt : (0 : ℚ) < 1 + m.Distance := by linarith
      simp only [decide_eq_true_eq, simOfDistance] at h2
      rw [le_div_iff₀ hlt] at h2
      linarith
    · rintro ⟨h1, h2⟩
      refine List.mem_filter.mpr ⟨h1, ?_⟩
      have hd := hpos m h1
      have hlt : (0 : ℚ) < 1 + m.Distance := by linarith
      simp only [decide_eq_true_eq, simOfDistance]
      rw [le_div_iff₀ hlt]
      linarith

/-- Witness for C5: the row at distance 2 (≤ 7/3) passes the 0.3
threshold. -/
theorem C5_similarity_threshold_witness :
    (⟨"a", 2⟩ : VectorMatch) ∈ scanMatches [⟨"a", (2 : ℚ)⟩] (3/10) :=
  ((C5_similarity_threshold [⟨"a", 2⟩] [1] 5 (3/10)).2.2.2.2
      (fun m hm => by
        simp only [List.mem_singleton] at hm
        subst hm
        norm_num)
      ⟨"a", 2⟩).mpr ⟨List.mem_singleton_self _, by norm_num⟩


/-! ### Store and importance claims -/

/-- Claim C6 (counterexample): `InsertMemory` accepts a memory whose
kind "banana" is not among the five valid kinds: it returns no error and
inserts the row (with the empty source defaulted to "user"), so the
store does not reject invalid kinds. -/
theorem C6_insert_counterexample :
    (InsertMemory [] ⟨"", "use Redis", "banana", 1/2, "", []⟩ "id0").2.2 = none ∧
    (InsertMemory [] ⟨"", "use Redis", "banana", 1/2, "", []⟩ "id0").1 =
      [⟨"id0", "use Redis", "banana", 1/2, "user", "[]"⟩] ∧
    ValidMemoryType "banana" = false :=
  ⟨rfl, rfl, by decide⟩

/-- Claim C6 (amended): `InsertMemory` performs no kind validation — for
every memory, valid kind or not, it inserts exactly one row carrying the
given kind and returns the generated id with a nil error; when the
memory's source is empty the stored row has source "user", otherwise the
given source. -/
theorem C6_insert_amended (table : List MemoryRow) (m : Memory) (newId : String) :
    (InsertMemory table m newId).2.2 = none ∧
    (InsertMemory table m newId).2.1 = newId ∧
    (InsertMemory table m newId).1 =
      table ++ [⟨newId, m.Content, m.MemoryType, m.Importance,
        if m.Source = "" then "user" else m.Source,
        if 0 < m.RelatedFiles.length then jsonMarshalStringList m.RelatedFiles
          else "[]"⟩] :=
  ⟨rfl, rfl, rfl⟩

/-- Claim C7 (counterexample): the remember command's auto-classification
path stores a plain remark as a note with importance 0.6, not the note
kind-default 0.5. -/
theorem C7_importance_counterexample :
    rememberCmdMemory "just a plain remark" "" =
      some ⟨"", "just a plain remark", "note", 3/5, "user", []⟩ ∧
    defaultImportance "note" = 1/2 ∧ ¬ ((3 : ℚ)/5 = 1/2) := by
  refine ⟨?_, rfl, by norm_num⟩
  rfl

/-- Claim C7 (amended): `Orchestrator.Remember` and the extractor stamp
the kind-default importance (decision/constraint 0.8, convention 0.7,
todo 0.6, note 0.5); the remember command instead stamps 0.8 for
decisions and constraints and 0.6 for every other kind — so on that path
conventions get 0.6 (not 0.7) and notes 0.6 (not 0.5). -/
theorem C7_importance_amended :
    (∀ content kind source m,
        orchestratorRemember content kind source = some m →
        m.Importance = defaultImportance kind) ∧
    (∀ decode raw max m, m ∈ (parseExtractionJSON decode raw max).1 →
        m.Importance = defaultImportance m.MemoryType) ∧
    (∀ statement flag m, rememberCmdMemory statement flag = some m →
        m.Importance =
          (if m.MemoryType = "decision" || m.MemoryType = "constraint" then 4/5
            else 3/5)) := by
  refine ⟨?_, ?_, ?_⟩
  · intro content kind source m hm
    unfold orchestratorRemember at hm
    by_cases hv : ValidMemoryType kind
    · rw [if_pos (by simpa using hv)] at hm
      have h := (Option.some.inj hm).symm
      subst h
      rfl
    · rw [if_neg (by simpa using hv)] at hm
      exact absurd hm (by simp)
  · intro decode raw max m hm
    unfold parseExtractionJSON at hm
    cases hbs : bracketSlice? raw with
    | none =>
      rw [hbs] at hm
      simp at hm
    | some s =>
      rw [hbs] at hm
      simp only [] at hm
      cases hdec : decode s with
      | none =>
        rw [hdec] at hm
        simp at hm
      | some cands =>
        rw [hdec] at hm
        simp only [] at hm
        rcases extractLoop_mem max cands [] m hm with h | ⟨c, _, _, _, _, himp, _⟩
        · simp at h
        · exact himp
  · intro statement flag m hm
    unfold rememberCmdMemory at hm
    by_cases hflag : flag ≠ ""
    · rw [if_pos (by simpa using hflag)] at hm
      by_cases hv : ValidMemoryType (goToLower flag)
      · rw [if_pos (by simpa using hv)] at hm
        have h := (Option.some.inj hm).symm
        subst h
        rfl
      · rw [if_neg (by simpa using hv)] at hm
        exact absurd hm (by simp)
    · rw [if_neg (by simpa using hflag)] at hm
      have h := (Option.some.inj hm).symm
      subst h
      rfl

/-- Witness for C7: applying the remember-command clause to the
auto-classified statement "hello". -/
theorem C7_importance_amended_witness :
    (mkRememberMemory "hello" (ClassifyMemoryType "hello")).Importance =
      (if (mkRememberMemory "hello" (ClassifyMemoryType "hello")).MemoryType = "decision" ||
          (mkRememberMemory "hello" (ClassifyMemoryType "hello")).MemoryType = "constraint"
        then 4/5 else 3/5) :=
  C7_importance_amended.2.2 "hello" "" _ rfl


/-- Claim C8 (confirmed): extraction parsing is lenient — when no
`[`…`]` slice exists, or the slice fails to decode, the result is no
memories and no error; every returned memory has (trimmed) non-empty
content, source "extracted" and a valid kind; each one's kind comes from
its candidate's type when that is valid and from the rule-based
classifier otherwise; and at most `max` memories come back. -/
theorem C8_parse_lenient (decode : String → Option (List ExtractCandidate))
    (raw : String) (max : Int) :
    (bracketSlice? raw = none → parseExtractionJSON decode raw max = ([], none)) ∧
    (∀ s, bracketSlice? raw = some s → decode s = none →
        parseExtractionJSON decode raw max = ([], none)) ∧
    (∀ s cands, bracketSlice? raw = some s → decode s = some cands →
        ∀ m ∈ (parseExtractionJSON decode raw max).1,
          m.Content ≠ "" ∧ m.Source = "extracted" ∧
          ValidMemoryType m.MemoryType = true ∧
          ∃ c ∈ cands, m.Content = goTrimSpace c.content ∧
            m.MemoryType =
              (if ValidMemoryType (goToLower (goTrimSpace c.ctype)) then
                  goToLower (goTrimSpace c.ctype)
                else ClassifyMemoryType m.Content)) ∧
    (parseExtractionJSON decode raw max).1.length ≤ max.toNat := by
  refine ⟨?_, ?_, ?_, ?_⟩
  · intro hbs
    unfold parseExtractionJSON
    rw [hbs]
  · intro s hbs hdec
    unfold parseExtractionJSON
    rw [hbs]
    simp only []
    rw [hdec]
  · intro s cands hbs hdec m hm
    unfold parseExtractionJSON at hm
    rw [hbs] at hm
    simp only [] at hm
    rw [hdec] at hm
    simp only [] at hm
    rcases extractLoop_mem max cands [] m hm with h | ⟨c, hc, h1, h2, h3, _, h5⟩
    · simp at h
    · refine ⟨h2, h3, ?_, c, hc, h1, h5⟩
      rw [h5]
      by_cases hv : ValidMemoryType (goToLower (goTrimSpace c.ctype)) = true
      · rw [if_pos (by simpa using hv)]
        exact hv
      · rw [if_neg (by simpa using hv)]
        exact validMemoryType_classify _
  · unfold parseExtractionJSON
    cases hbs : bracketSlice? raw with
    | none => simp
    | some s =>
      simp only []
      cases hdec : decode s with
      | none => simp
      | some cands =>
        simp only []
        exact extractLoop_length max cands [] (by simp)

/-- Witness for C8: the seed input `"[{broken"` has a `[` but no `]`, so
parsing yields no memories and no error. -/
theorem C8_parse_lenient_witness :
    parseExtractionJSON (fun _ => none) "[\x7bbroken" 3 = ([], none) :=
  (C8_parse_lenient (fun _ => none) "[\x7bbroken" 3).1 (by decide)

/-! ### Skip-file claim -/

/-- Claim C9 (code bug): the source's skip set contains ".min.js", but
`filepath.Ext` only ever returns the suffix from the last dot (".js"
here), so a minified-JS file name is NOT skipped — while the image,
archive, executable families, the ".lock"/".sum"/".map" suffixes and the
canonical lock filenames are. -/
theorem C9_skipfile_minjs :
    SkipFile "app.min.js" = false ∧
    goExt "app.min.js" = ".js" ∧
    skipExtensions.contains ".min.js" = true ∧
    lockFileNames.all (fun n => SkipFile n) = true ∧
    SkipFile "photo.png" = true ∧ SkipFile "archive.zip" = true ∧
    SkipFile "binary.exe" = true ∧ SkipFile "image.svg" = true ∧
    SkipFile "doc.pdf" = true ∧
    SkipFile "a.lock" = true ∧ SkipFile "b.sum" = true ∧ SkipFile "c.map" = true := by
  decide

/-! ### Vector store empty-input claim -/

/-- Claim C10 (confirmed): the vector store never fails on empty input —
upserting an empty embedding returns success without touching the
tables, and searching with an empty query vector returns an empty result
with no error. -/
theorem C10_vector_empty_input (st : VecTables) (id : String) (emb : List ℚ)
    (rows : List VectorMatch) (query : List ℚ) (topK : Int) (minSim : ℚ) :
    (emb = [] →
      UpsertChunkEmbedding st id emb = (st, none) ∧
      UpsertMemoryEmbedding st id emb = (st, none)) ∧
    (query = [] →
      SearchChunks rows query topK minSim = ([], none) ∧
      SearchMemories rows query topK minSim = ([], none)) := by
  constructor
  · rintro rfl
    exact ⟨rfl, rfl⟩
  · rintro rfl
    exact ⟨rfl, rfl⟩

/-- Witness for C10 at concrete empty inputs. -/
theorem C10_vector_empty_input_witness :
    UpsertChunkEmbedding ⟨[], []⟩ "c1" [] = (⟨[], []⟩, none) ∧
    SearchChunks [⟨"a", 1⟩] [] 5 (3/10) = ([], none) :=
  ⟨((C10_vector_empty_input ⟨[], []⟩ "c1" [] [⟨"a", 1⟩] [] 5 (3/10)).1 rfl).1,
   ((C10_vector_empty_input ⟨[], []⟩ "c1" [] [⟨"a", 1⟩] [] 5 (3/10)).2 rfl).1⟩


/-! ### Context-builder budget invariants -/

/-- The decision step never increases `remaining` and keeps it
non-negative (token counts are non-negative). -/
lemma decisionTrace_remaining (count : String → Int) (hc : ∀ s, 0 ≤ count s)
    (decisions : List Memory) (remaining : Int) (h : 0 ≤ remaining) :
    0 ≤ (decisionTrace count decisions remaining).2 ∧
    (decisionTrace count decisions remaining).2 ≤ remaining := by
  unfold decisionTrace
  have hcnt := hc (FormatMemories "decision" decisions)
  dsimp only
  split_ifs with h1 h2 <;> constructor <;> dsimp only <;> omega

/-- The retrieved-memories loop never increases `remaining` and keeps it
non-negative. -/
lemma memTrace_remaining (count : String → Int) (hc : ∀ s, 0 ≤ count s) :
    ∀ (mems : List Memory) (remaining : Int), 0 ≤ remaining →
      0 ≤ (memTrace count remaining mems).2.1 ∧
      (memTrace count remaining mems).2.1 ≤ remaining := by
  intro mems
  induction mems with
  | nil =>
    intro remaining h
    exact ⟨h, le_refl _⟩
  | cons m rest ih =>
    intro remaining h
    simp only [memTrace]
    split_ifs with hskip hfit
    · exact ih remaining h
    · have hcnt := hc ("- " ++ m.Content ++ "\n")
      have hrec := ih (remaining - count ("- " ++ m.Content ++ "\n")) (by omega)
      constructor
      · dsimp only
        exact hrec.1
      · dsimp only
        omega
    · exact ih remaining h

/-- The retrieved-chunks loop never increases `remaining` and keeps it
non-negative. -/
lemma chunkTrace_remaining (env : BuildEnv) (hc : ∀ s, 0 ≤ env.count s) :
    ∀ (chunks : List Chunk) (remaining : Int), 0 ≤ remaining →
      0 ≤ (chunkTrace env remaining chunks).2.1 ∧
      (chunkTrace env remaining chunks).2.1 ≤ remaining := by
  intro chunks
  induction chunks with
  | nil =>
    intro remaining h
    exact ⟨h, le_refl _⟩
  | cons c rest ih =>
    intro remaining h
    simp only [chunkTrace]
    split_ifs with hfit htrunc
    · have hcnt := hc (FormatChunk c
        (match env.getFileByID c.FileID with
          | some f => f.Path
          | none => ""))
      have hrec := ih (remaining - env.count (FormatChunk c
        (match env.getFileByID c.FileID with
          | some f => f.Path
          | none => ""))) (by omega)
      constructor
      · dsimp only
        exact hrec.1
      · dsimp only
        omega
    · constructor
      · dsimp only
        omega
      · dsimp only
        omega
    · exact ⟨h, le_refl _⟩

/-- Every decision-step trace entry was measured and fits. -/
lemma decisionTrace_fits (count : String → Int) (decisions : List Memory)
    (remaining : Int) :
    ∀ e ∈ (decisionTrace count decisions remaining).1,
      count e.block ≤ e.remBefore ∧ e.truncated = false := by
  unfold decisionTrace
  dsimp only
  split_ifs with h1 h2
  · intro e he
    dsimp only at he
    simp only [List.mem_singleton] at he
    subst he
    exact ⟨h2, rfl⟩
  · intro e he
    dsimp only at he
    simp at he
  · intro e he
    dsimp only at he
    simp at he

/-- Every memory-loop trace entry was measured and fits. -/
lemma memTrace_fits (count : String → Int) :
    ∀ (mems : List Memory) (remaining : Int),
      ∀ e ∈ (memTrace count remaining mems).1,
        count e.block ≤ e.remBefore ∧ e.truncated = false := by
  intro mems
  induction mems with
  | nil =>
    intro remaining e he
    simp [memTrace] at he
  | cons m rest ih =>
    intro remaining e he
    simp only [memTrace] at he
    split_ifs at he with hskip hfit
    · exact ih remaining e he
    · rcases List.mem_cons.mp he with h | h
      · subst h
        exact ⟨hfit, rfl⟩
      · exact ih _ e h
    · exact ih remaining e he

/-- Every chunk-loop trace entry that is not the truncation-branch block
was measured and fits. -/
lemma chunkTrace_fits (env : BuildEnv) :
    ∀ (chunks : List Chunk) (remaining : Int),
      ∀ e ∈ (chunkTrace env remaining chunks).1,
        e.truncated = false → env.count e.block ≤ e.remBefore := by
  intro chunks
  induction chunks with
  | nil =>
    intro remaining e he
    simp [chunkTrace] at he
  | cons c rest ih =>
    intro remaining e he
    simp only [chunkTrace] at he
    split_ifs at he with hfit htrunc
    · rcases List.mem_cons.mp he with h | h
      · subst h
        intro _
        exact hfit
      · exact ih _ e h
    · simp only [List.mem_singleton] at he
      subst he
      intro hfalse
      simp at hfalse
    · simp at he

set_option maxRecDepth 8000 in
/-- Claim C1 (counterexample): with a tokenizer satisfying every law the
spec states for it (here: counts are character counts, truncation keeps
the first n characters) and a 101-token budget, the truncation branch
appends a block whose measured token count (280: a 200-character file
header plus 51 characters of truncated content plus the fence wrapper)
exceeds the 101 tokens remaining at its evaluation — the claim's
"no block whose measured token count exceeds the remaining budget is
included" is false for the truncation branch. -/
theorem C1_truncation_counterexample :
    (∀ s, 0 ≤ cxEnv.count s) ∧
    (∀ s n, 0 ≤ n → cxEnv.count (cxEnv.truncateTo s n) ≤ n) ∧
    (∀ s n, cxEnv.count s ≤ n → cxEnv.truncateTo s n = s) ∧
    ∃ e ∈ (buildTrace cxEnv cxOpts).1, ¬ (cxEnv.count e.block ≤ e.remBefore) := by
  refine ⟨?_, ?_, ?_, ?_⟩
  · intro s
    exact Int.natCast_nonneg _
  · intro s n hn
    show ((String.mk (s.data.take n.toNat)).length : Int) ≤ n
    have h1 : (String.mk (s.data.take n.toNat)).length = (s.data.take n.toNat).length := rfl
    have h2 : (s.data.take n.toNat).length ≤ n.toNat := by
      rw [List.length_take]
      omega
    omega
  · intro s n hs
    show String.mk (s.data.take n.toNat) = s
    have h1 : (s.length : Int) ≤ n := hs
    have h2 : s.length = s.data.length := rfl
    have hlen : s.data.length ≤ n.toNat := by omega
    rw [List.take_of_length_le hlen]
  · decide

/-- Claim C1 (amended): `tokensUsed = maxTokens − remaining` (with the
default 8000 applied to a zero budget), and — for non-negative budgets
and token counts — `tokensUsed ≤ maxTokens`; the appended blocks are
exactly the trace blocks, and every block appended through the fit check
has measured count within the `remaining` of its evaluation.  The block
of the truncation branch is exempt: its content is truncated to
`remaining − 50` tokens but the formatted block is appended without
being re-measured. -/
theorem C1_budget_amended (env : BuildEnv) (opts : BuildOptions)
    (hc : ∀ s, 0 ≤ env.count s) (hmax : 0 ≤ opts.MaxTokens) :
    (Build env opts).TokensUsed =
      (if opts.MaxTokens = 0 then 8000 else opts.MaxTokens) -
        (buildTrace env opts).2.1 ∧
    (Build env opts).TokensUsed ≤ (if opts.MaxTokens = 0 then 8000 else opts.MaxTokens) ∧
    (Build env opts).ContextText =
      joinLines ((buildTrace env opts).1.map (fun e => e.block)) ∧
    (∀ e ∈ (buildTrace env opts).1, e.truncated = false →
        env.count e.block ≤ e.remBefore) := by
  have hmaxT : 0 ≤ (if opts.MaxTokens = 0 then (8000 : Int) else opts.MaxTokens) := by
    split <;> omega
  refine ⟨rfl, ?_, rfl, ?_⟩
  · have hrem : 0 ≤ (buildTrace env opts).2.1 := by
      unfold buildTrace
      cases hr : env.retrieve with
      | none =>
        simp only []
        exact (decisionTrace_remaining env.count hc (env.listMemories "decision") _ hmaxT).1
      | some r =>
        simp only []
        have h1 := decisionTrace_remaining env.count hc (env.listMemories "decision") _ hmaxT
        have h2 := memTrace_remaining env.count hc r.Memories _ h1.1
        have h3 := chunkTrace_remaining env hc r.Chunks _ h2.1
        exact h3.1
    show (if opts.MaxTokens = 0 then (8000 : Int) else opts.MaxTokens) -
        (buildTrace env opts).2.1 ≤ _
    omega
  · intro e he hf
    unfold buildTrace at he
    cases hr : env.retrieve with
    | none =>
      rw [hr] at he
      simp only [] at he
      exact (decisionTrace_fits env.count (env.listMemories "decision") _ e he).1
    | some r =>
      rw [hr] at he
      simp only [] at he
      rcases List.mem_append.mp he with h | h
      · rcases List.mem_append.mp h with h' | h'
        · exact (decisionTrace_fits env.count (env.listMemories "decision") _ e h').1
        · exact (memTrace_fits env.count r.Memories _ e h').1
      · exact chunkTrace_fits env r.Chunks _ e h hf

/-- Witness for C1 (amended) at the concrete environment: the reported
tokensUsed stays within the 101-token budget. -/
theorem C1_budget_amended_witness :
    (Build cxEnv cxOpts).TokensUsed ≤
      (if cxOpts.MaxTokens = 0 then 8000 else cxOpts.MaxTokens) :=
  (C1_budget_amended cxEnv cxOpts (fun s => Int.natCast_nonneg _) (by decide)).2.1

end Memvra
